import Mathlib

/-!
Verification of the etcd3 `Election` module (`src/election.ts`).

The TypeScript class coordinates leader election through an external etcd
store.  We shallow-embed the store (a revision counter plus a list of
key-value records), etcd's conditional transactions, and each public
operation of the class.  Asynchronous parts are embedded explicitly:
`waitDeletes` runs over a trace of store snapshots (one per re-query), and
watch usage is recorded as an event list.
-/

namespace Etcd3Election

/-- Digit character map used by `BigNumber.toString(16)` in
`Election.getKey`: lowercase, `0`-`9` then `a`-`f`. -/
def hexDigitChar : Nat → Char
  | 0 => '0'
  | 1 => '1'
  | 2 => '2'
  | 3 => '3'
  | 4 => '4'
  | 5 => '5'
  | 6 => '6'
  | 7 => '7'
  | 8 => '8'
  | 9 => '9'
  | 10 => 'a'
  | 11 => 'b'
  | 12 => 'c'
  | 13 => 'd'
  | 14 => 'e'
  | _ => 'f'

/-- Numeric value of a lowercase hexadecimal digit character. -/
def hexDigitVal (c : Char) : Nat :=
  if 97 ≤ c.toNat then c.toNat - 87 else c.toNat - 48

/-- Fuel-driven base-16 expansion (most significant digit first), the
unpadded lowercase output of `BigNumber.toString(16)`. -/
def hexCharsCore : Nat → Nat → List Char → List Char
  | 0, _, ds => ds
  | fuel + 1, n, ds =>
    if n < 16 then hexDigitChar n :: ds
    else hexCharsCore fuel (n / 16) (hexDigitChar (n % 16) :: ds)

/-- Lowercase unpadded hexadecimal digit list of `n`. -/
def hexChars (n : Nat) : List Char := hexCharsCore (n + 1) n []

/-- Recursive reference form of the hexadecimal expansion, used in proofs. -/
def hexRep (n : Nat) : List Char :=
  if n < 16 then [hexDigitChar n]
  else hexRep (n / 16) ++ [hexDigitChar (n % 16)]
decreasing_by exact Nat.div_lt_self (by omega) (by omega)

/-- Decode accumulator for a hexadecimal digit list. -/
def hexDecodeAux (acc : Nat) : List Char → Nat
  | [] => acc
  | c :: cs => hexDecodeAux (acc * 16 + hexDigitVal c) cs

/-- Decode a hexadecimal digit list back to a natural number. -/
def hexDecode (cs : List Char) : Nat := hexDecodeAux 0 cs

theorem hexDigitVal_hexDigitChar {n : Nat} (h : n < 16) :
    hexDigitVal (hexDigitChar n) = n := by
  interval_cases n <;> decide

theorem hexCharsCore_eq_hexRep :
    ∀ (fuel n : Nat) (ds : List Char), n < fuel →
      hexCharsCore fuel n ds = hexRep n ++ ds := by
  intro fuel
  induction fuel with
  | zero => intro n ds h; exact absurd h (Nat.not_lt_zero n)
  | succ fuel ih =>
    intro n ds h
    by_cases h16 : n < 16
    · rw [hexCharsCore, if_pos h16, hexRep, if_pos h16]
      rfl
    · rw [hexCharsCore, if_neg h16, hexRep, if_neg h16]
      rw [ih (n / 16) _ (by
        have hlt : n / 16 < n := Nat.div_lt_self (by omega) (by omega)
        omega)]
      rw [List.append_assoc]
      rfl

theorem hexDecodeAux_append :
    ∀ (l1 l2 : List Char) (acc : Nat),
      hexDecodeAux acc (l1 ++ l2) = hexDecodeAux (hexDecodeAux acc l1) l2 := by
  intro l1
  induction l1 with
  | nil => intro l2 acc; rfl
  | cons c cs ih => intro l2 acc; simpa [hexDecodeAux] using ih l2 _

theorem hexDecodeAux_hexRep (n : Nat) :
    ∀ acc : Nat, hexDecodeAux acc (hexRep n) = acc * 16 ^ (hexRep n).length + n := by
  induction n using Nat.strong_induction_on with
  | _ n ih =>
    intro acc
    by_cases h16 : n < 16
    · rw [hexRep, if_pos h16]
      simp [hexDecodeAux, hexDigitVal_hexDigitChar h16]
    · rw [hexRep, if_neg h16]
      have hlt : n / 16 < n := Nat.div_lt_self (by omega) (by omega)
      rw [hexDecodeAux_append, ih (n / 16) hlt acc]
      have hmod : n % 16 < 16 := Nat.mod_lt n (by omega)
      have hdm : 16 * (n / 16) + n % 16 = n := Nat.div_add_mod n 16
      simp only [hexDecodeAux, hexDigitVal_hexDigitChar hmod, List.length_append,
        List.length_cons, List.length_nil]
      calc (acc * 16 ^ (hexRep (n / 16)).length + n / 16) * 16 + n % 16
          = acc * (16 ^ (hexRep (n / 16)).length * 16) + (16 * (n / 16) + n % 16) := by
            ring
        _ = acc * 16 ^ ((hexRep (n / 16)).length + (0 + 1)) + n := by
            rw [hdm, Nat.zero_add, pow_succ]

theorem hexChars_eq_hexRep (n : Nat) : hexChars n = hexRep n := by
  rw [hexChars, hexCharsCore_eq_hexRep (n + 1) n [] (Nat.lt_succ_self n),
    List.append_nil]

theorem hexDecode_hexChars (n : Nat) : hexDecode (hexChars n) = n := by
  rw [hexDecode, hexChars_eq_hexRep, hexDecodeAux_hexRep]
  simp

theorem hexChars_injective {a b : Nat} (h : hexChars a = hexChars b) : a = b := by
  have := hexDecode_hexChars a
  rw [h, hexDecode_hexChars] at this
  omega

/-- Characters of the static class segment `election` plus separator,
from `Election.prefix` and the first part of `getPrefix()`. -/
def rootChars : List Char := ['e', 'l', 'e', 'c', 't', 'i', 'o', 'n', '/']

/-- `Election.getPrefix()`: the characters of `election/<keyPrefix>/`. -/
def getPfxChars (kp : List Char) : List Char := rootChars ++ kp ++ ['/']

/-- `Election.getKey(leaseId)`: the campaign key characters, the election
prefix followed by the lowercase unpadded hex of the lease id. -/
def getKeyChars (kp : List Char) (leaseId : Nat) : List Char :=
  getPfxChars kp ++ hexChars leaseId

/-- `Election.getKey(leaseId)` as a string. -/
def getKey (kp : List Char) (leaseId : Nat) : String :=
  String.mk (getKeyChars kp leaseId)

/-- One key-value record of the etcd store (the fields of `IKeyValue`
the election code reads). -/
structure KeyValue where
  key : List Char
  value : String
  createRevision : Int
  lease : Nat
deriving DecidableEq, Repr

/-- `IResponseHeader`, reduced to the one field the election code reads. -/
structure ResponseHeader where
  revision : Int
deriving DecidableEq, Repr

/-- Store state: the current revision counter and the live key-value
records.  Revisions are assigned by the store at commit time. -/
structure Store where
  revision : Int
  kvs : List KeyValue
deriving DecidableEq, Repr

/-- The comparison form the election code builds with
`session.if(key, 'Create', '==', v)`. -/
inductive TxnCompare where
  | createRevEq (key : List Char) (rev : Int)
deriving DecidableEq, Repr

/-- The branch operations the election code uses inside transactions. -/
inductive TxnOp where
  | put (key : List Char) (value : String) (lease : Nat)
  | get (key : List Char)
  | del (key : List Char)
deriving DecidableEq, Repr

/-- Transaction response: `{succeeded, header}`. -/
structure TxnResponse where
  succeeded : Bool
  header : ResponseHeader
deriving DecidableEq, Repr

/-- Creation revision of `key` in the store; `0` when the key is absent,
matching etcd's semantics for the `Create == 0` comparison. -/
def createRevOf (st : Store) (key : List Char) : Int :=
  match st.kvs.find? (fun kv => kv.key == key) with
  | some kv => kv.createRevision
  | none => 0

/-- Evaluate a transaction comparison against the store. -/
def evalCompare (st : Store) : TxnCompare → Bool
  | .createRevEq key rev => createRevOf st key == rev

/-- Whether executing the operation would change the store (etcd bumps
the revision only for transactions that commit changes). -/
def opMutates (st : Store) : TxnOp → Bool
  | .put _ _ _ => true
  | .get _ => false
  | .del key => st.kvs.any (fun kv => kv.key == key)

/-- Apply a put: an existing key keeps its `createRevision` (only value
and lease are replaced); a new key is created at `newRev`. -/
def putKV (st : Store) (key : List Char) (value : String) (lease : Nat)
    (newRev : Int) : Store :=
  if st.kvs.any (fun kv => kv.key == key) then
    { st with kvs := st.kvs.map (fun kv =>
        if kv.key == key then { kv with value := value, lease := lease } else kv) }
  else
    { st with kvs := st.kvs ++ [⟨key, value, newRev, lease⟩] }

/-- Apply a delete: remove the records with the given key. -/
def delKV (st : Store) (key : List Char) : Store :=
  { st with kvs := st.kvs.filter (fun kv => !(kv.key == key)) }

/-- Apply one branch operation at commit revision `newRev`. -/
def applyOp (st : Store) (newRev : Int) : TxnOp → Store
  | .put key value lease => putKV st key value lease newRev
  | .get _ => st
  | .del key => delKV st key

/-- Execute a conditional commit (`session.if(...).then(...).else(...).commit()`).
The comparison picks the branch; a mutating branch commits at a fresh
revision, a read-only or empty branch leaves the revision unchanged; the
response header carries the revision at commit time. -/
def execTxn (st : Store) (cmp : TxnCompare) (succOp failOp : Option TxnOp) :
    TxnResponse × Store :=
  let ok := evalCompare st cmp
  match (if ok then succOp else failOp) with
  | none => (⟨ok, ⟨st.revision⟩⟩, st)
  | some op =>
    if opMutates st op then
      let newRev := st.revision + 1
      (⟨ok, ⟨newRev⟩⟩, { applyOp st newRev op with revision := newRev })
    else
      (⟨ok, ⟨st.revision⟩⟩, applyOp st st.revision op)

/-- The mutable fields of the `Election` class.  `none` models a field
that is still `undefined` (or `null` for the lease id); `some []` models
the cleared `leaderKey = ""`. -/
structure ElectionState where
  leaderKey : Option (List Char) := none
  leaderRevision : Option Int := none
  leaderLeaseId : Option Nat := none
deriving DecidableEq, Repr

/-- Notifications emitted through the event emitter. -/
inductive Notif where
  | elected
  | resigned
deriving DecidableEq, Repr

/-- Typed errors of the election module. -/
inductive ElectionError where
  | noLeader
  | notLeader
deriving DecidableEq, Repr

/-- Store interactions recorded by an operation, in order. -/
inductive StoreOp where
  | leaseGrant (leaseId : Nat)
  | txnCommit (cmp : TxnCompare) (succOp failOp : Option TxnOp) (res : TxnResponse)
deriving DecidableEq, Repr

/-- Ascending order on `createRevision`, the `sort("Create", "Ascend")`
option of the range query in `waitDeletes`. -/
def createLe (a b : KeyValue) : Prop := a.createRevision ≤ b.createRevision

/-- Descending order on `createRevision`, the `sort("Create", "Descend")`
option of the range query in `leader`. -/
def createGe (a b : KeyValue) : Prop := b.createRevision ≤ a.createRevision

instance : DecidableRel createLe := fun a b =>
  inferInstanceAs (Decidable (a.createRevision ≤ b.createRevision))

instance : DecidableRel createGe := fun a b =>
  inferInstanceAs (Decidable (b.createRevision ≤ a.createRevision))

instance : IsTotal KeyValue createLe :=
  ⟨fun a b => Int.le_total a.createRevision b.createRevision⟩

instance : IsTrans KeyValue createLe :=
  ⟨fun _ _ _ h1 h2 => le_trans h1 h2⟩

instance : IsTotal KeyValue createGe :=
  ⟨fun a b => Int.le_total b.createRevision a.createRevision⟩

instance : IsTrans KeyValue createGe :=
  ⟨fun _ _ _ h1 h2 => le_trans h2 h1⟩

/-- Result rows of `getAll().prefix(getPrefix())`: the records whose key
lies under the election prefix. -/
def rangeKvs (st : Store) (kp : List Char) : List KeyValue :=
  st.kvs.filter (fun kv => (getPfxChars kp).isPrefixOf kv.key)

/-- Result rows of `getAll().prefix(getPrefix()).maxCreateRevision(bound)`:
under the prefix and with `createRevision ≤ bound`. -/
def rangeKvsMax (st : Store) (kp : List Char) (bound : Int) : List KeyValue :=
  st.kvs.filter (fun kv =>
    (getPfxChars kp).isPrefixOf kv.key && decide (kv.createRevision ≤ bound))

/-- `waitDeletes(maxCreateRevision)` over a trace of store snapshots, one
snapshot per range re-query of the loop.  The loop resolves with the
header of the first query whose (sorted) result is empty; between two
snapshots the code waits for the deletion of the first surviving row.
`none` means the trace ended with the wait still blocked. -/
def waitDeletes (kp : List Char) (bound : Int) : List Store → Option ResponseHeader
  | [] => none
  | st :: rest =>
    let res := (rangeKvsMax st kp bound).insertionSort createLe
    if res.isEmpty then some ⟨st.revision⟩
    else waitDeletes kp bound rest

/-- Watch lifecycle events of `waitDelete`/`waitDeletes`. -/
inductive WatchEvent where
  | opened (key : List Char)
  | deleteSeen (key : List Char)
  | released (key : List Char)
deriving DecidableEq, Repr

/-- The watch events produced by the `waitDeletes` loop on a snapshot
trace, exactly as `waitDelete` performs them: it creates a watcher on the
first surviving row's key and resolves on that key's delete event; the
watcher is never cancelled (no `released` event is ever emitted). -/
def waitDeletesEvents (kp : List Char) (bound : Int) : List Store → List WatchEvent
  | [] => []
  | st :: rest =>
    match (rangeKvsMax st kp bound).insertionSort createLe with
    | [] => []
    | kv :: _ =>
      .opened kv.key :: .deleteSeen kv.key :: waitDeletesEvents kp bound rest

/-- Number of `opened` events. -/
def openedCount (evs : List WatchEvent) : Nat :=
  (evs.filter (fun ev => match ev with | .opened _ => true | _ => false)).length

/-- Number of `released` events. -/
def releasedCount (evs : List WatchEvent) : Nat :=
  (evs.filter (fun ev => match ev with | .released _ => true | _ => false)).length

/-- Result of the transactional phase of `campaign` (everything up to the
`waitDeletes` call): updated election fields, updated store, the store
interactions, and the bound passed to `waitDeletes`. -/
structure CampaignResult where
  es : ElectionState
  st : Store
  ops : List StoreOp
  waitBound : Int
deriving DecidableEq, Repr

/-- `Election.campaign(value)` up to the `waitDeletes` call: grant a lease,
build the key, commit `if(key, 'Create', '==', 0).then(put).else(get)`,
record the leader triple from the response, and compute
`leaderRevision - 1` as the wait bound. -/
def campaign (kp : List Char) (es : ElectionState) (st : Store)
    (leaseId : Nat) (value : String) : CampaignResult :=
  let key := getKeyChars kp leaseId
  let cmp := TxnCompare.createRevEq key 0
  let succOp := some (TxnOp.put key value leaseId)
  let failOp := some (TxnOp.get key)
  let r := execTxn st cmp succOp failOp
  let es' := { es with
    leaderKey := some key
    leaderRevision := some r.1.header.revision
    leaderLeaseId := some leaseId }
  ⟨es', r.2, [.leaseGrant leaseId, .txnCommit cmp succOp failOp r.1],
    r.1.header.revision - 1⟩

/-- The JavaScript test `this.leaderKey != ""` of `campaign`'s
continuation (`undefined != ""` is also true). -/
def leaderKeyNe : Option (List Char) → Bool
  | none => true
  | some k => !k.isEmpty

/-- The continuation of `campaign` after `waitDeletes` resolves: emit
`elected` only when `leaderKey` is still non-empty. -/
def campaignAfterWait (es : ElectionState) : List Notif :=
  if leaderKeyNe es.leaderKey then [Notif.elected] else []

instance : DecidableEq (Except ElectionError Unit) := fun a b =>
  match a, b with
  | .ok (), .ok () => isTrue rfl
  | .error e, .error f =>
    if h : e = f then isTrue (by rw [h]) else isFalse (fun hc => by cases hc; exact h rfl)
  | .ok _, .error _ => isFalse (fun h => by cases h)
  | .error _, .ok _ => isFalse (fun h => by cases h)

/-- Result of `proclaim` or `resign`: outcome, updated election fields,
updated store, store interactions, notifications. -/
structure OpResult where
  outcome : Except ElectionError Unit
  es : ElectionState
  st : Store
  ops : List StoreOp
  notifs : List Notif
deriving DecidableEq, Repr

/-- `Election.proclaim(value)`: throw `NotLeader` at once when
`leaderLeaseId` is falsy; otherwise commit
`if(leaderKey, 'Create', '==', leaderRevision).then(put)` and, when the
comparison failed, clear `leaderKey` and throw `NotLeader`. -/
def proclaim (es : ElectionState) (st : Store) (value : String) : OpResult :=
  match es.leaderLeaseId with
  | none => ⟨.error .notLeader, es, st, [], []⟩
  | some leaseId =>
    let key := es.leaderKey.getD []
    let rev := es.leaderRevision.getD 0
    let cmp := TxnCompare.createRevEq key rev
    let succOp := some (TxnOp.put key value leaseId)
    let r := execTxn st cmp succOp none
    if r.1.succeeded then
      ⟨.ok (), es, r.2, [.txnCommit cmp succOp none r.1], []⟩
    else
      ⟨.error .notLeader, { es with leaderKey := some [] }, r.2,
        [.txnCommit cmp succOp none r.1], []⟩

/-- `Election.resign()`: return at once when `leaderLeaseId` is falsy;
otherwise commit `if(leaderKey, 'Create', '==', leaderRevision).then(delete)`
and, regardless of the comparison's outcome, emit `resigned` and clear
`leaderKey` and `leaderLeaseId` (`leaderRevision` is left untouched). -/
def resign (es : ElectionState) (st : Store) : OpResult :=
  match es.leaderLeaseId with
  | none => ⟨.ok (), es, st, [], []⟩
  | some _ =>
    let key := es.leaderKey.getD []
    let rev := es.leaderRevision.getD 0
    let cmp := TxnCompare.createRevEq key rev
    let succOp := some (TxnOp.del key)
    let r := execTxn st cmp succOp none
    ⟨.ok (), { es with leaderKey := some [], leaderLeaseId := none }, r.2,
      [.txnCommit cmp succOp none r.1], [Notif.resigned]⟩

/-- `Election.leader()`: range-query the prefix sorted by creation
revision descending; fail with `NoLeader` on an empty result, else return
the first row's value.  The definition takes no `ElectionState`: the
operation cannot read or mutate the election fields. -/
def leader (kp : List Char) (st : Store) : Except ElectionError String :=
  match (rangeKvs st kp).insertionSort createGe with
  | [] => .error .noLeader
  | kv :: _ => .ok kv.value

/-- `leaderKey` holds a non-empty string. -/
def keyPresent : Option (List Char) → Bool
  | none => false
  | some k => !k.isEmpty

/-- All three leader fields are set (with a non-empty `leaderKey`). -/
def allPresent (es : ElectionState) : Bool :=
  keyPresent es.leaderKey && es.leaderRevision.isSome && es.leaderLeaseId.isSome

/-- All three leader fields are absent/cleared. -/
def allAbsent (es : ElectionState) : Bool :=
  !keyPresent es.leaderKey && es.leaderRevision.isNone && es.leaderLeaseId.isNone

/-- The spec's invariant on the leader triple: all present or all absent. -/
def tripleInvariant (es : ElectionState) : Prop :=
  allPresent es = true ∨ allAbsent es = true

instance (es : ElectionState) : Decidable (tripleInvariant es) :=
  inferInstanceAs (Decidable (allPresent es = true ∨ allAbsent es = true))

/-! Concrete fixtures used by closed counterexamples and witnesses. -/

/-- A concrete election name (`keyPrefix = "s"`). -/
def kp0 : List Char := ['s']

/-- The election fields right after construction (all `undefined`). -/
def es0 : ElectionState := {}

/-- An empty store. -/
def st0 : Store := ⟨0, []⟩

/-- A concrete campaign value. -/
def vX : String := "x"

/-- A second concrete value. -/
def vY : String := "y"

/-- A third concrete value. -/
def vZ : String := "z"

/-! Theorems for the claims. -/

/-- C8: for a fixed election name, `getKey` is an injective function of
the (non-negative, arbitrary-precision) lease id, and the hex segment of
the produced key decodes back to the lease id. -/
theorem getKey_injective_roundtrip (kp : List Char) :
    (∀ a b : Nat, getKey kp a = getKey kp b → a = b) ∧
    (∀ n : Nat, hexDecode (List.drop (getPfxChars kp).length (getKeyChars kp n)) = n) := by
  constructor
  · intro a b h
    have hl : getKeyChars kp a = getKeyChars kp b := congrArg String.data h
    exact hexChars_injective (List.append_cancel_left hl)
  · intro n
    rw [getKeyChars, List.drop_left, hexDecode_hexChars]

/-- C8 witness: concrete instances of injectivity and of the round trip
at lease id `48879` (hex `beef`). -/
theorem getKey_injective_roundtrip_witness :
    (255 : Nat) = 255 ∧
      hexDecode (List.drop (getPfxChars kp0).length (getKeyChars kp0 48879)) = 48879 :=
  ⟨(getKey_injective_roundtrip kp0).1 255 255 rfl,
   (getKey_injective_roundtrip kp0).2 48879⟩

/-- C2: `campaign(value)` performs exactly one conditional commit, whose
comparison is `Create(key) == 0`, whose success branch puts the value
under the acquired lease and whose failure branch reads the key; in both
branches it records `leaderKey = key`,
`leaderRevision = response.header.revision`, `leaderLeaseId = leaseId`,
and the bound handed to `waitDeletes` is `leaderRevision - 1`. -/
theorem campaign_spec (kp : List Char) (es : ElectionState) (st : Store)
    (leaseId : Nat) (value : String) :
    ∃ res : TxnResponse,
      (campaign kp es st leaseId value).ops =
        [StoreOp.leaseGrant leaseId,
         StoreOp.txnCommit (TxnCompare.createRevEq (getKeyChars kp leaseId) 0)
           (some (TxnOp.put (getKeyChars kp leaseId) value leaseId))
           (some (TxnOp.get (getKeyChars kp leaseId))) res] ∧
      (campaign kp es st leaseId value).es.leaderKey = some (getKeyChars kp leaseId) ∧
      (campaign kp es st leaseId value).es.leaderRevision = some res.header.revision ∧
      (campaign kp es st leaseId value).es.leaderLeaseId = some leaseId ∧
      (campaign kp es st leaseId value).waitBound = res.header.revision - 1 :=
  ⟨_, rfl, rfl, rfl, rfl, rfl⟩

/-- C7: after the wait phase of a campaign, the `elected` notification is
emitted iff `leaderKey` is still non-empty at that moment; in particular a
`resign` that ran while the campaign was waiting (possible whenever the
instance held a lease id) clears `leaderKey`, so no notification fires. -/
theorem campaign_elected_iff (es : ElectionState) :
    (Notif.elected ∈ campaignAfterWait es ↔ es.leaderKey ≠ some ([] : List Char)) ∧
    (∀ st : Store, es.leaderLeaseId ≠ none →
      campaignAfterWait (resign es st).es = []) := by
  constructor
  · match h : es.leaderKey with
    | none => simp [campaignAfterWait, leaderKeyNe, h]
    | some [] => simp [campaignAfterWait, leaderKeyNe, h]
    | some (c :: cs) => simp [campaignAfterWait, leaderKeyNe, h]
  · intro st hL
    match h : es.leaderLeaseId with
    | none => exact absurd h hL
    | some leaseId => simp [resign, h, campaignAfterWait, leaderKeyNe]

/-- C7 witness: a concrete leading state emits `elected` after the wait,
and does not when a resign ran in between. -/
theorem campaign_elected_iff_witness :
    (Notif.elected ∈ campaignAfterWait ⟨some (getKeyChars kp0 1), some 1, some 1⟩ ↔
      (some (getKeyChars kp0 1) : Option (List Char)) ≠ some []) ∧
    campaignAfterWait (resign ⟨some (getKeyChars kp0 1), some 1, some 1⟩ st0).es = [] :=
  ⟨(campaign_elected_iff ⟨some (getKeyChars kp0 1), some 1, some 1⟩).1,
   (campaign_elected_iff ⟨some (getKeyChars kp0 1), some 1, some 1⟩).2 st0 (by decide)⟩

/-- A state that believes it is leading: key for lease `1`, revision 5. -/
def esLed : ElectionState := ⟨some (getKeyChars kp0 1), some 5, some 1⟩

/-- A store at revision 5 that does not contain the campaign key any
more (e.g. after lease expiry). -/
def st5 : Store := ⟨5, []⟩

/-- C4: `proclaim(value)` fails with `NotLeader` at once, with no store
interaction, when `leaderLeaseId` is unset; otherwise it issues one
conditional commit whose comparison is
`Create(leaderKey) == leaderRevision`, and when the comparison fails it
clears `leaderKey` to the empty string and fails with `NotLeader` (on
success it leaves the fields unchanged). -/
theorem proclaim_spec (es : ElectionState) (st : Store) (value : String) :
    (es.leaderLeaseId = none →
      proclaim es st value = ⟨.error .notLeader, es, st, [], []⟩) ∧
    (∀ leaseId, es.leaderLeaseId = some leaseId →
      let key := es.leaderKey.getD []
      let cmp := TxnCompare.createRevEq key (es.leaderRevision.getD 0)
      let succOp := some (TxnOp.put key value leaseId)
      let r := execTxn st cmp succOp none
      (proclaim es st value).ops = [.txnCommit cmp succOp none r.1] ∧
      (proclaim es st value).st = r.2 ∧
      r.1.succeeded = (createRevOf st key == es.leaderRevision.getD 0) ∧
      (r.1.succeeded = false →
        (proclaim es st value).outcome = .error .notLeader ∧
        (proclaim es st value).es = { es with leaderKey := some [] }) ∧
      (r.1.succeeded = true →
        (proclaim es st value).outcome = .ok () ∧
        (proclaim es st value).es = es)) := by
  constructor
  · intro h
    simp [proclaim, h]
  · intro leaseId h
    simp only [proclaim, h]
    cases hOk : createRevOf st (es.leaderKey.getD []) == es.leaderRevision.getD 0 <;>
      simp [execTxn, evalCompare, hOk, opMutates]

/-- C4 witness: an unset lease id fails with no interaction; a failing
comparison clears `leaderKey` and fails with `NotLeader`. -/
theorem proclaim_spec_witness :
    proclaim es0 st0 vZ = ⟨.error .notLeader, es0, st0, [], []⟩ ∧
    (proclaim esLed st5 vZ).outcome = .error .notLeader ∧
    (proclaim esLed st5 vZ).es = { esLed with leaderKey := some [] } := by
  refine ⟨(proclaim_spec es0 st0 vZ).1 rfl, ?_, ?_⟩
  · exact (((proclaim_spec esLed st5 vZ).2 1 rfl).2.2.2.1 (by decide)).1
  · exact (((proclaim_spec esLed st5 vZ).2 1 rfl).2.2.2.1 (by decide)).2

/-- C5: `resign()` returns at once, with no store interaction and no
notification, when `leaderLeaseId` is unset; otherwise it issues one
conditional commit that deletes `leaderKey` when
`Create(leaderKey) == leaderRevision` holds, and regardless of the
comparison's outcome it clears `leaderKey` to the empty string, nulls
`leaderLeaseId` and emits a `resigned` notification. -/
theorem resign_spec (es : ElectionState) (st : Store) :
    (es.leaderLeaseId = none → resign es st = ⟨.ok (), es, st, [], []⟩) ∧
    (es.leaderLeaseId ≠ none →
      let key := es.leaderKey.getD []
      let cmp := TxnCompare.createRevEq key (es.leaderRevision.getD 0)
      let succOp := some (TxnOp.del key)
      let r := execTxn st cmp succOp none
      (resign es st).ops = [.txnCommit cmp succOp none r.1] ∧
      (resign es st).st = r.2 ∧
      r.1.succeeded = (createRevOf st key == es.leaderRevision.getD 0) ∧
      (resign es st).es = { es with leaderKey := some [], leaderLeaseId := none } ∧
      (resign es st).notifs = [Notif.resigned] ∧
      (r.1.succeeded = true → ∀ kv ∈ r.2.kvs, kv.key ≠ key)) := by
  constructor
  · intro h
    simp [resign, h]
  · intro hL
    match h : es.leaderLeaseId with
    | none => exact absurd h hL
    | some leaseId =>
      simp only [resign, h]
      cases hOk : createRevOf st (es.leaderKey.getD []) == es.leaderRevision.getD 0 <;>
        cases hM : st.kvs.any (fun kv => kv.key == es.leaderKey.getD []) <;>
        simp [execTxn, evalCompare, hOk, opMutates, hM, applyOp, delKV,
          List.mem_filter]

/-- C5 witness: an unset lease id is a no-op; with a lease id set but the
comparison failing, the fields are still cleared and `resigned` fires. -/
theorem resign_spec_witness :
    resign es0 st0 = ⟨.ok (), es0, st0, [], []⟩ ∧
    (resign esLed st5).es = { esLed with leaderKey := some [], leaderLeaseId := none } ∧
    (resign esLed st5).notifs = [Notif.resigned] := by
  refine ⟨(resign_spec es0 st0).1 rfl, ?_, ?_⟩
  · exact ((resign_spec esLed st5).2 (by decide)).2.2.2.1
  · exact ((resign_spec esLed st5).2 (by decide)).2.2.2.2.1

/-- A store holding two campaign keys under `kp0` (creation revisions 1
and 2). -/
def stL : Store :=
  ⟨3, [⟨getKeyChars kp0 1, vX, 1, 1⟩, ⟨getKeyChars kp0 2, vY, 2, 2⟩]⟩

/-- C6: `leader()` sorts the prefix range by creation revision
descending; on a store with no surviving key under the prefix it fails
with `NoLeader`, and on a non-empty range it returns the value of the
first row, a surviving row of maximal `createRevision` (the most recently
created).  Its definition takes no `ElectionState`, so it cannot mutate
local election state. -/
theorem leader_spec (kp : List Char) (st : Store) :
    (rangeKvs st kp = [] → leader kp st = .error .noLeader) ∧
    (∀ kv0, kv0 ∈ rangeKvs st kp →
      ∃ kv, kv ∈ rangeKvs st kp ∧ leader kp st = .ok kv.value ∧
        ∀ x ∈ rangeKvs st kp, x.createRevision ≤ kv.createRevision) := by
  constructor
  · intro hE
    simp [leader, hE]
  · intro kv0 hkv0
    have hperm := List.perm_insertionSort createGe (rangeKvs st kp)
    have hsorted := List.sorted_insertionSort createGe (rangeKvs st kp)
    cases hsort : (rangeKvs st kp).insertionSort createGe with
    | nil =>
      rw [hsort] at hperm
      rw [hperm.symm.eq_nil] at hkv0
      exact absurd hkv0 (List.not_mem_nil kv0)
    | cons kv tail =>
      rw [hsort] at hperm hsorted
      refine ⟨kv, ?_, ?_, ?_⟩
      · exact hperm.mem_iff.mp (List.mem_cons_self kv tail)
      · simp [leader, hsort]
      · intro x hx
        rcases List.mem_cons.mp (hperm.mem_iff.mpr hx) with h1 | h2
        · rw [h1]
        · exact List.rel_of_sorted_cons hsorted x h2

/-- C6 witness: `NoLeader` on the empty store, and on `stL` the returned
row is the most recently created surviving key. -/
theorem leader_spec_witness :
    leader kp0 st0 = .error .noLeader ∧
    ∃ kv, kv ∈ rangeKvs stL kp0 ∧ leader kp0 stL = .ok kv.value ∧
      ∀ x ∈ rangeKvs stL kp0, x.createRevision ≤ kv.createRevision :=
  ⟨(leader_spec kp0 st0).1 (by decide),
   (leader_spec kp0 stL).2 ⟨getKeyChars kp0 1, vX, 1, 1⟩ (by decide)⟩

/-- C1: whenever `waitDeletes(bound)` resolves over a trace of store
snapshots, it does so at the first snapshot whose prefix range query
restricted to `createRevision ≤ bound` returns no keys, and it returns
that empty query's response header; at every earlier snapshot — while
some key with `createRevision ≤ bound` still existed under the prefix,
even with predecessors removed one at a time — it does not resolve. -/
theorem waitDeletes_spec (kp : List Char) (bound : Int) (trace : List Store)
    (h : ResponseHeader) (hres : waitDeletes kp bound trace = some h) :
    ∃ i, ∃ hi : i < trace.length,
      rangeKvsMax (trace.get ⟨i, hi⟩) kp bound = [] ∧
      h = ⟨(trace.get ⟨i, hi⟩).revision⟩ ∧
      ∀ j, ∀ hj : j < trace.length, j < i →
        rangeKvsMax (trace.get ⟨j, hj⟩) kp bound ≠ [] := by
  induction trace with
  | nil => simp [waitDeletes] at hres
  | cons st rest ih =>
    rw [waitDeletes] at hres
    by_cases hE : ((rangeKvsMax st kp bound).insertionSort createLe).isEmpty = true
    · have hnil : rangeKvsMax st kp bound = [] := by
        have hperm := List.perm_insertionSort createLe (rangeKvsMax st kp bound)
        rw [List.isEmpty_iff] at hE
        rw [hE] at hperm
        exact hperm.symm.eq_nil
      refine ⟨0, Nat.succ_pos rest.length, hnil, ?_, ?_⟩
      · simp [hE, List.isEmpty_iff] at hres
        exact hres.symm
      · intro j hj hj0
        exact absurd hj0 (Nat.not_lt_zero j)
    · simp only [hE, if_neg, Bool.not_eq_true] at hres
      obtain ⟨i, hi, h1, h2, h3⟩ := ih hres
      refine ⟨i + 1, Nat.succ_lt_succ hi, h1, h2, ?_⟩
      intro j hj hjlt
      cases j with
      | zero =>
        intro hc
        apply hE
        have hc2 : rangeKvsMax st kp bound = [] := hc
        rw [hc2]
        simp [List.insertionSort]
      | succ k =>
        exact h3 k (Nat.lt_of_succ_lt_succ hj) (Nat.lt_of_succ_lt_succ hjlt)

/-- First snapshot of the predecessor-removal trace: two keys with
creation revisions 1 and 2 survive at or below the bound 2. -/
def w1 : Store :=
  ⟨2, [⟨getKeyChars kp0 1, vX, 1, 1⟩, ⟨getKeyChars kp0 2, vY, 2, 2⟩]⟩

/-- Second snapshot: the oldest key was deleted, one predecessor left. -/
def w2 : Store := ⟨3, [⟨getKeyChars kp0 2, vY, 2, 2⟩]⟩

/-- Third snapshot: no key at or below the bound survives. -/
def w3 : Store := ⟨4, []⟩

/-- C1 witness: over the trace removing predecessors one at a time, the
wait resolves exactly at the third (first empty) snapshot with its
header. -/
theorem waitDeletes_spec_witness :
    ∃ i, ∃ hi : i < ([w1, w2, w3] : List Store).length,
      rangeKvsMax (([w1, w2, w3] : List Store).get ⟨i, hi⟩) kp0 2 = [] ∧
      (⟨4⟩ : ResponseHeader) = ⟨(([w1, w2, w3] : List Store).get ⟨i, hi⟩).revision⟩ ∧
      ∀ j, ∀ hj : j < ([w1, w2, w3] : List Store).length, j < i →
        rangeKvsMax (([w1, w2, w3] : List Store).get ⟨j, hj⟩) kp0 2 ≠ [] :=
  waitDeletes_spec kp0 2 [w1, w2, w3] ⟨4⟩ (by decide)

/-- C3 counterexample: after a successful `campaign` followed by
`resign`, `leaderKey` and `leaderLeaseId` are cleared but
`leaderRevision` is still set, so the triple is neither all present nor
all absent. -/
theorem tripleInvariant_cex :
    ¬ tripleInvariant
      (resign (campaign kp0 es0 st0 1 vX).es (campaign kp0 es0 st0 1 vX).st).es := by
  decide

/-- C3 amended: `campaign` sets all three fields together, but `resign`
clears only `leaderKey` and `leaderLeaseId` (leaving `leaderRevision`
set), and a condition-failed `proclaim` clears only `leaderKey` (leaving
the other two set); so the triple is not all-present-or-all-absent after
every operation. -/
theorem leaderTriple_amended (kp : List Char) (es : ElectionState)
    (st st2 : Store) (leaseId : Nat) (value w : String) :
    allPresent (campaign kp es st leaseId value).es = true ∧
    (es.leaderLeaseId ≠ none →
      (resign es st2).es = { es with leaderKey := some [], leaderLeaseId := none }) ∧
    (es.leaderLeaseId ≠ none → (proclaim es st2 w).outcome = .error .notLeader →
      (proclaim es st2 w).es = { es with leaderKey := some [] }) := by
  refine ⟨?_, ?_, ?_⟩
  · simp [campaign, allPresent, keyPresent, getKeyChars, getPfxChars, rootChars]
  · intro hL
    match h : es.leaderLeaseId with
    | none => exact absurd h hL
    | some leaseId2 => simp [resign, h]
  · intro hL hout
    match h : es.leaderLeaseId with
    | none => exact absurd h hL
    | some leaseId2 =>
      cases hS : (execTxn st2
          (TxnCompare.createRevEq (es.leaderKey.getD []) (es.leaderRevision.getD 0))
          (some (TxnOp.put (es.leaderKey.getD []) w leaseId2)) none).1.succeeded with
      | false => simp [proclaim, h, hS]
      | true => simp [proclaim, h, hS] at hout

/-- C3 amended witness: concrete campaign, a resign whose comparison even
fails, and a failing proclaim. -/
theorem leaderTriple_amended_witness :
    allPresent (campaign kp0 es0 st0 1 vX).es = true ∧
    (resign esLed st5).es = { esLed with leaderKey := some [], leaderLeaseId := none } ∧
    (proclaim esLed st5 vZ).es = { esLed with leaderKey := some [] } :=
  ⟨(leaderTriple_amended kp0 es0 st0 st5 1 vX vZ).1,
   (leaderTriple_amended kp0 esLed st0 st5 1 vX vZ).2.1 (by decide),
   (leaderTriple_amended kp0 esLed st0 st5 1 vX vZ).2.2 (by decide) (by decide)⟩

/-- A store in which the campaign key for lease 1 already exists with
creation revision 2, with no writes since (current revision 2). -/
def stC10 : Store := ⟨2, [⟨getKeyChars kp0 1, vX, 2, 1⟩]⟩

/-- C10 counterexample: with the campaign key already existing and no
intervening writes, the re-entrant campaign records
`leaderRevision = 2`, equal to (not strictly greater than) the key's
creation revision, and the subsequent `proclaim` then succeeds instead of
failing with `NotLeader`. -/
theorem campaign_reentrant_cex :
    (campaign kp0 es0 stC10 1 vY).es.leaderRevision = some 2 ∧
    createRevOf stC10 (getKeyChars kp0 1) = 2 ∧
    (proclaim (campaign kp0 es0 stC10 1 vY).es
        (campaign kp0 es0 stC10 1 vY).st vZ).outcome = .ok () := by
  decide

/-- C10 amended: in the condition-failed (re-entrant) branch, `campaign`
leaves the store unchanged and records the store's current revision as
`leaderRevision`, which is at least — not necessarily strictly greater
than — the existing key's `createRevision`; the subsequent `proclaim`
fails with `NotLeader` (clearing `leaderKey`) exactly when it is strictly
greater, i.e. when some other write committed after the key's creation,
and succeeds when the two are equal. -/
theorem campaign_reentrant_amended (kp : List Char) (es : ElectionState)
    (st : Store) (leaseId : Nat) (value w : String) (kv : KeyValue)
    (hfind : st.kvs.find? (fun x => x.key == getKeyChars kp leaseId) = some kv)
    (hne : kv.createRevision ≠ 0)
    (hwf : kv.createRevision ≤ st.revision) :
    (campaign kp es st leaseId value).st = st ∧
    (campaign kp es st leaseId value).es.leaderRevision = some st.revision ∧
    (kv.createRevision < st.revision →
      (proclaim (campaign kp es st leaseId value).es
          (campaign kp es st leaseId value).st w).outcome = .error .notLeader ∧
      (proclaim (campaign kp es st leaseId value).es
          (campaign kp es st leaseId value).st w).es.leaderKey = some []) ∧
    (kv.createRevision = st.revision →
      (proclaim (campaign kp es st leaseId value).es
          (campaign kp es st leaseId value).st w).outcome = .ok ()) := by
  have hcr : createRevOf st (getKeyChars kp leaseId) = kv.createRevision := by
    simp [createRevOf, hfind]
  have hcmp : evalCompare st (TxnCompare.createRevEq (getKeyChars kp leaseId) 0) = false := by
    simp [evalCompare, hcr, hne]
  have hexec : execTxn st (TxnCompare.createRevEq (getKeyChars kp leaseId) 0)
      (some (TxnOp.put (getKeyChars kp leaseId) value leaseId))
      (some (TxnOp.get (getKeyChars kp leaseId))) =
      (⟨false, ⟨st.revision⟩⟩, st) := by
    simp [execTxn, hcmp, opMutates, applyOp]
  have hcamp : campaign kp es st leaseId value =
      ⟨{ es with
          leaderKey := some (getKeyChars kp leaseId)
          leaderRevision := some st.revision
          leaderLeaseId := some leaseId },
        st,
        [.leaseGrant leaseId,
         .txnCommit (TxnCompare.createRevEq (getKeyChars kp leaseId) 0)
           (some (TxnOp.put (getKeyChars kp leaseId) value leaseId))
           (some (TxnOp.get (getKeyChars kp leaseId))) ⟨false, ⟨st.revision⟩⟩],
        st.revision - 1⟩ := by
    simp [campaign, hexec]
  refine ⟨?_, ?_, ?_, ?_⟩
  · rw [hcamp]
  · rw [hcamp]
  · intro hlt
    have hb : (createRevOf st (getKeyChars kp leaseId) == st.revision) = false := by
      rw [hcr]
      exact beq_eq_false_iff_ne.mpr (by omega)
    have hexec2 : execTxn st (TxnCompare.createRevEq (getKeyChars kp leaseId) st.revision)
        (some (TxnOp.put (getKeyChars kp leaseId) w leaseId)) none =
        (⟨false, ⟨st.revision⟩⟩, st) := by
      simp [execTxn, evalCompare, hb]
    rw [hcamp]
    constructor <;> simp [proclaim, hexec2]
  · intro heq
    have hb : (createRevOf st (getKeyChars kp leaseId) == st.revision) = true := by
      rw [hcr, heq]
      exact beq_self_eq_true _
    have hexec2 : execTxn st (TxnCompare.createRevEq (getKeyChars kp leaseId) st.revision)
        (some (TxnOp.put (getKeyChars kp leaseId) w leaseId)) none =
        (⟨true, ⟨st.revision + 1⟩⟩,
          { putKV st (getKeyChars kp leaseId) w leaseId (st.revision + 1) with
              revision := st.revision + 1 }) := by
      simp [execTxn, evalCompare, hb, opMutates, applyOp]
    rw [hcamp]
    simp [proclaim, hexec2]

/-- A store where the existing campaign key (creation revision 2) is
older than the current revision 3: some other write intervened. -/
def stW10 : Store := ⟨3, [⟨getKeyChars kp0 1, vX, 2, 1⟩]⟩

/-- C10 amended witness: with an intervening write, the re-entrant
campaign records revision 3 and the subsequent proclaim fails. -/
theorem campaign_reentrant_amended_witness :
    (campaign kp0 es0 stW10 1 vY).st = stW10 ∧
    (campaign kp0 es0 stW10 1 vY).es.leaderRevision = some 3 ∧
    (proclaim (campaign kp0 es0 stW10 1 vY).es
        (campaign kp0 es0 stW10 1 vY).st vZ).outcome = .error .notLeader := by
  have h := campaign_reentrant_amended kp0 es0 stW10 1 vY vZ
    ⟨getKeyChars kp0 1, vX, 2, 1⟩ (by decide) (by decide) (by decide)
  exact ⟨h.1, h.2.1, (h.2.2.1 (by decide)).1⟩

/-- C9: the claimed watch discipline fails on the code: over the concrete
trace in which two predecessors are removed one at a time, the
`waitDeletes` loop opens two watch subscriptions and never releases
either of them — after the first key's delete event is observed its
subscription stays open while the second is opened, so two subscriptions
are active simultaneously and none is released on any exit path. -/
theorem waitDeletes_watch_leak :
    openedCount (waitDeletesEvents kp0 2 [w1, w2, w3]) = 2 ∧
    releasedCount (waitDeletesEvents kp0 2 [w1, w2, w3]) = 0 := by
  decide

end Etcd3Election
